import Mathlib

/-!
# Verification of the `geoplot` plotting pipeline (codevp/geoplot.py)

Shallow embedding of the optical-system plotting pipeline:
mesh generation (`gen_points`), lens clipping (`clip_lens`),
cross-section extraction and stitching (`plot_surfaces`), and ray
rendering (`plot_rays`).

Modelling conventions:
* Floating-point values are modelled as exact rationals; `nan` is
  modelled as `none` in `Option ℚ` (written `OQ`).  Arithmetic on `OQ`
  propagates `none`; comparisons involving `none` are `false`, which
  matches IEEE nan comparison semantics under `np.errstate(invalid
  = ignore)`.
* The components of a surface's direction parameter `D` are radian
  values; each is represented as `a + b·π` with `a b : ℚ` (`PiQ`), so
  that exact integer multiples of π — which the source tests with
  `np.mod(surf.D/pi, 1) != 0` — are representable.
* `np.sqrt` appears in the source only to form the Euclidean
  inter-surface distance `d` and to compare two stitching distances.
  The pipeline is parametrised by a square-root oracle `sq : ℚ → ℚ`
  applied to the squared distance, and the stitching comparison
  `sqrt dis1 <= sqrt dis2` is modelled by the equivalent comparison of
  the squared distances (square root is monotone on nonnegatives; the
  bridge to `Real.sqrt` is proved where a claim mentions distances).
-/

/-- A `nan`-aware scalar: `none` models IEEE nan, `some q` a finite value. -/
abbrev OQ := Option ℚ

/-- Scalar `np.nan_to_num`: replace nan by 0. -/
def nan_to_num (x : OQ) : ℚ := x.getD 0

/-- nan-propagating binary arithmetic on `OQ`. -/
def oBin (f : ℚ → ℚ → ℚ) : OQ → OQ → OQ
  | some a, some b => some (f a b)
  | _, _ => none

/-- nan-aware `<=`: any comparison with nan is false. -/
def oLe : OQ → OQ → Bool
  | some a, some b => decide (a ≤ b)
  | _, _ => false

/-- nan-aware test `abs(x) == 0` (false on nan, as under
`np.errstate(invalid = ignore)`). -/
def eqZeroAbs : OQ → Bool
  | some a => decide (|a| = 0)
  | none => false

/-- A 3D mesh point; `x`/`y` come from the sampling grid (always finite
there) and `z` from the surface-height collaborator (possibly nan).
After the lab-frame transform any coordinate may be nan, so all three
are `OQ`. -/
structure Pt3 where
  x : OQ
  y : OQ
  z : OQ
deriving DecidableEq, Repr, Inhabited

/-- Coordinate access `point[:, i]` for `i ∈ {0, 1, 2}`.  The source
only ever indexes with `axes[1] = 2` and `1 - axes[0] ∈ {0, 1}`
(`axes ∈ {[0,2], [1,2]}`), so indices above 2 do not occur; they are
mapped to `z` to keep the function total. -/
def coordN (p : Pt3) : ℕ → OQ
  | 0 => p.x
  | 1 => p.y
  | _ => p.z

/-- A radian value `a + b·π` with rational `a`, `b`. -/
structure PiQ where
  a : ℚ
  b : ℚ
deriving DecidableEq, Repr, Inhabited

/-- The real number denoted by a `PiQ` value. -/
noncomputable def PiQ.val (v : PiQ) : ℝ := (v.a : ℝ) + (v.b : ℝ) * Real.pi

/-- One component of the source test `np.mod(D/pi, 1) != 0`:
`(a + b·π)/π = a/π + b` has nonzero fractional part iff it is not an
integer, iff `¬(a = 0 ∧ b ∈ ℤ)` (π is irrational; see
`modPiNonzero_iff_not_pi_multiple`). -/
def modPiNonzero (v : PiQ) : Bool := !(v.a == 0 && v.b.den == 1)

/-- A surface descriptor, the read-only view over the geometry
collaborator used by `geoplot`: aperture diameter `Diam`, auxiliary
shape parameters `diam`, `c`, direction parameter `D` (list of radian
components), interaction kind `inter`, and lab-frame vertex position
`P`.  The pose `R` is only ever passed to the frame-transform
collaborator and is folded into the collaborator parameter. -/
structure Surface where
  Diam : ℚ
  diam : ℚ
  c : ℚ
  D : List PiQ
  inter : String
  P : ℚ × ℚ × ℚ
deriving DecidableEq, Repr, Inhabited

/-- Squared Euclidean distance of two vertex positions,
`np.sum(np.square(surf1.P - surf2.P))`. -/
def sumSqP (u v : ℚ × ℚ × ℚ) : ℚ :=
  (u.1 - v.1) ^ 2 + (u.2.1 - v.2.1) ^ 2 + (u.2.2 - v.2.2) ^ 2

/-! ## Mesh generation (`gen_points`) -/

/-- Mesh resolution: `np.linspace(-bound, bound, 200)`. -/
def gridRes : ℕ := 200

/-- Samples of `np.linspace(-b, b, gridRes)`: the `i`-th sample is
`-b + i·(2b/(gridRes-1))`. -/
def linspaceQ (b : ℚ) : List ℚ :=
  (List.range gridRes).map fun i : ℕ => -b + 2 * b * (i : ℚ) / ((gridRes : ℚ) - 1)

/-- The raveled `x`-samples: `np.append(x_mesh, [linspace, np.zeros(200)])`
where `x_mesh, _ = np.meshgrid(linspace, -linspace)` — 200 copies of
`linspace` (one per mesh row), then the x cross-hair (`linspace`), then
the y cross-hair x-coordinates (all 0). -/
def x_points (b : ℚ) : List ℚ :=
  ((linspaceQ b).flatMap fun _ => linspaceQ b)
    ++ linspaceQ b ++ List.replicate gridRes 0

/-- The raveled `y`-samples: `np.append(y_mesh, [np.zeros(200), linspace])`
where `_, y_mesh = np.meshgrid(linspace, -linspace)` — row `i` of
`y_mesh` is constantly `-linspace[i]`, then the x cross-hair
y-coordinates (all 0), then the y cross-hair (`linspace`). -/
def y_points (b : ℚ) : List ℚ :=
  ((linspaceQ b).flatMap fun v => List.replicate gridRes (-v))
    ++ List.replicate gridRes 0 ++ linspaceQ b

/-- Pairing `np.vstack((x_points.ravel(), y_points.ravel())).T`. -/
def meshpoints_2d (b : ℚ) : List (ℚ × ℚ) := (x_points b).zip (y_points b)

/-- Mesh generation for one surface: pair up the samples and query the
surface-geometry collaborator `hf` (`surface.get_surface_plot`) for the
height `z` at each 2D sample; `hf` may return nan (`none`). -/
def gen_points_surf (hf : ℚ → ℚ → OQ) (Diam : ℚ) : List Pt3 :=
  (meshpoints_2d (Diam / 2)).map fun v => ⟨some v.1, some v.2, hf v.1 v.2⟩

/-- The `gen_points` pass over all surfaces: appends each surface's
mesh cloud to the instance's `surfpoints` accumulator, in surface
order. -/
def gen_points (hf : Surface → ℚ → ℚ → OQ) (surfaces : List Surface)
    (surfpoints : List (List Pt3)) : List (List Pt3) :=
  surfpoints ++ surfaces.map fun s => gen_points_surf (hf s) s.Diam

/-! ## Lens clipping (`clip_lens`) -/

/-- The per-sample clipping test: with both incoming z-values
nan-sanitised (`np.nan_to_num`) and the second cloud shifted by `+d`,
the sample is masked iff `(z2 + d) - z1 <= 0`. -/
def clipMask (d : ℚ) (p q : Pt3) : Bool :=
  decide ((nan_to_num q.z + d) - nan_to_num p.z ≤ 0)

/-- Core of `clip_lens`, given the separation `d`: write nan into the
z-value of *both* clouds at every masked index.  The `+d` shift is
applied to sanitised copies (`np.nan_to_num` copies the array) and is
not persisted into the stored clouds. -/
def clip_core (d : ℚ) (c1 c2 : List Pt3) : List Pt3 × List Pt3 :=
  (List.zipWith (fun p q => if clipMask d p q then { p with z := none } else p) c1 c2,
   List.zipWith (fun p q => if clipMask d p q then { q with z := none } else q) c1 c2)

/-- Full `clip_lens`: compute `d = sqrt(np.sum(np.square(surf1.P - surf2.P)))`
through the square-root oracle `sq`, then clip both clouds. -/
def clip_lens (sq : ℚ → ℚ) (s1 s2 : Surface) (c1 c2 : List Pt3) :
    List Pt3 × List Pt3 :=
  clip_core (sq (sumSqP s1.P s2.P)) c1 c2

/-! ## Cross-section extraction and stitching (`plot_surfaces`) -/

/-- The degenerate-branch test of `plot_surfaces`:
`np.any(np.mod(surf.D/pi, 1) != 0) and surf.c == 0 and surf.diam == 0`. -/
def specialCond (s : Surface) : Bool :=
  s.D.any modPiNonzero && s.c == 0 && s.diam == 0

/-- Cross-section index selection: in the special branch select points
whose coordinate `axes[1]` is exactly zero, otherwise points whose
coordinate `1 - axes[0]` is exactly zero (`abs(coord) == 0`, false on
nan). -/
def cross_idx_filter (axes : ℕ × ℕ) (s : Surface) (cloud : List Pt3) : List Pt3 :=
  if specialCond s then cloud.filter fun p => eqZeroAbs (coordN p axes.2)
  else cloud.filter fun p => eqZeroAbs (coordN p (1 - axes.1))

/-- Modelled from the spec: the frame-transform collaborator
`lab_frame` (`codevp/transforms.py`, not under `src/`).  The spec gives
`to_lab_frame(pose, surface, local_points) -> lab_points (same count,
3D)`; it is modelled as a per-point map by a collaborator parameter
`labf` (the pose `R` is part of the surface record handed to it), which
preserves the point count as the spec requires. -/
def lab_frame (labf : Surface → Pt3 → Pt3) (s : Surface) (pts : List Pt3) :
    List Pt3 :=
  pts.map (labf s)

/-- Squared distance between two (possibly nan) 2D points, modelling
`np.sqrt(np.sum(np.square(u - v)))` up to the monotone square root. -/
def distSqO (u v : OQ × OQ) : OQ :=
  oBin (· + ·) (oBin (fun a b => (a - b) ^ 2) u.1 v.1)
    (oBin (fun a b => (a - b) ^ 2) u.2 v.2)

/-- Insertion `np.insert(xs, [0, -1], [a, b])`: `a` before position 0 and `b`
before position `len-1` (positions refer to the original array). -/
def npInsertFront (a b : α) (xs : List α) : List α :=
  a :: (xs.take (xs.length - 1) ++ b :: xs.drop (xs.length - 1))

/-- Insertion `np.insert(xs, [-1, 0], [a, b])`: `a` before position `len-1` and
`b` before position 0. -/
def npInsertBack (a b : α) (xs : List α) : List α :=
  b :: (xs.take (xs.length - 1) ++ a :: xs.drop (xs.length - 1))

/-- The stitch insertion of `plot_surfaces` (executed on the
toggle-to-1 transition): compare the stored start's distance to the
current curve's first and last points (`dis1 <= dis2`, nan compares
false) and insert the stored `(start, end)` values at positions
`[0, -1]` or `[-1, 0]` of both coordinate arrays. -/
def stitchInsert (s e : OQ × OQ) (F G : List OQ) : List OQ × List OQ :=
  if oLe (distSqO s (F.headD none, G.headD none))
      (distSqO s (F.getLastD none, G.getLastD none))
  then (npInsertFront s.1 e.1 F, npInsertFront s.2 e.2 G)
  else (npInsertBack s.1 e.1 F, npInsertBack s.2 e.2 G)

/-- Both of two surfaces have interaction kind `refraction`. -/
def refractionPair (surfaces : List Surface) (i j : ℕ) : Bool :=
  (surfaces.getD i default).inter == "refraction"
    && (surfaces.getD j default).inter == "refraction"

/-- The `lens_condition` test: the current surface and the *next* one are both
refracting. -/
def lens_condition (surfaces : List Surface) (idx : ℕ) : Bool :=
  decide (idx + 1 < surfaces.length) && refractionPair surfaces idx (idx + 1)

/-- The mutable state threaded through one `plot_surfaces` pass:
`lens_check` and the stitch pair `start`/`end` (instance attributes in
the source; `end` is `endp` here as `end` is reserved), the per-surface
point clouds `surfpoints` (mutated in place by `clip_lens`), and the
emitted 2D curves, one `(F, G)` pair per surface. -/
structure PlotState where
  lens_check : ℕ
  start : Option (OQ × OQ)
  endp : Option (OQ × OQ)
  surfpoints : List (List Pt3)
  curves : List (List OQ × List OQ)
deriving DecidableEq, Repr, Inhabited

/-- One iteration of the `plot_surfaces` loop at surface `idx`:
clip with the next surface when `lens_condition` holds, select the
cross-section points, transform them to the lab frame, extract the
`(F, G)` curve, stitch when the previous pair is refracting and a
stitch state is stored (toggling `lens_check`), store the curve
endpoints when `lens_condition` holds, and emit the curve.  At
`idx = 0` the Python expression `surfaces[idx-1]` wraps to the last
surface (it is then unreachable because `start` is `None`). -/
def plot_step (sq : ℚ → ℚ) (labf : Surface → Pt3 → Pt3) (axes : ℕ × ℕ)
    (surfaces : List Surface) (st : PlotState) (idx : ℕ) : PlotState :=
  let surf := surfaces.getD idx default
  let lc := lens_condition surfaces idx
  let sp :=
    if lc then
      let res := clip_lens sq surf (surfaces.getD (idx + 1) default)
        (st.surfpoints.getD idx []) (st.surfpoints.getD (idx + 1) [])
      (st.surfpoints.set idx res.1).set (idx + 1) res.2
    else st.surfpoints
  let cross_points := cross_idx_filter axes surf (sp.getD idx [])
  let points := lab_frame labf surf cross_points
  let F := points.map fun p => coordN p axes.1
  let G := points.map fun p => coordN p axes.2
  let prevIdx := if idx = 0 then surfaces.length - 1 else idx - 1
  let stitched :=
    if refractionPair surfaces idx prevIdx && st.start.isSome then
      let check := 1 - st.lens_check
      if check = 1 then
        let FG := stitchInsert (st.start.getD (none, none))
          (st.endp.getD (none, none)) F G
        (check, FG.1, FG.2)
      else (check, F, G)
    else (st.lens_check, F, G)
  let FF := stitched.2.1
  let GG := stitched.2.2
  { lens_check := stitched.1
    start := if lc then some (FF.headD none, GG.headD none) else st.start
    endp := if lc then some (FF.getLastD none, GG.getLastD none) else st.endp
    surfpoints := sp
    curves := st.curves ++ [(FF, GG)] }

/-- The full `plot_surfaces` pass: reset `lens_check` to 0 and `start`
to `None`, then iterate `plot_step` over all surface indices. -/
def plot_surfaces (sq : ℚ → ℚ) (labf : Surface → Pt3 → Pt3) (axes : ℕ × ℕ)
    (surfaces : List Surface) (clouds : List (List Pt3)) : PlotState :=
  (List.range surfaces.length).foldl (plot_step sq labf axes surfaces)
    { lens_check := 0, start := none, endp := none,
      surfpoints := clouds, curves := [] }

/-! ## Ray rendering (`plot_rays`) -/

/-- A traced ray: lab-frame position history and direction history
(same length, one entry per optical event). -/
structure Ray where
  P_hist : List (ℚ × ℚ × ℚ)
  D_hist : List (ℚ × ℚ × ℚ)
deriving DecidableEq, Repr, Inhabited

/-- Component access `v[axes[k]]` on a 3-vector. -/
def vcoord (v : ℚ × ℚ × ℚ) : ℕ → ℚ
  | 0 => v.1
  | 1 => v.2.1
  | _ => v.2.2

/-- A drawn 2D segment, in plot coordinates (the source plots
`[G, G_p], [F, F_p]`, so a segment runs between `(G, F)` points). -/
structure Seg where
  p1 : ℚ × ℚ
  p2 : ℚ × ℚ
deriving DecidableEq, Repr, Inhabited

/-- The `plot_rays` body for one ray: one connecting segment per consecutive
pair of history positions (loop over `ray.P_hist[:-1]`), then one
direction-indicator segment from the final position along the final
direction (`D_hist` entry aligned with the last position). -/
def plot_rays_ray (axes : ℕ × ℕ) (r : Ray) : List Seg :=
  let n := r.P_hist.length
  let proj := fun (v : ℚ × ℚ × ℚ) => (vcoord v axes.2, vcoord v axes.1)
  ((List.range (n - 1)).map fun i =>
    ⟨proj (r.P_hist.getD i default), proj (r.P_hist.getD (i + 1) default)⟩)
    ++ [⟨proj (r.P_hist.getD (n - 1) default),
        proj (r.P_hist.getD (n - 1) default)
          + proj (r.D_hist.getD (n - 1) default)⟩]

/-! ## Concrete fixtures used by witnesses and counterexamples -/

/-- The constant-zero height collaborator of end-to-end scenarios 2/3. -/
def flatHeight : ℚ → ℚ → OQ := fun _ _ => some 0

/-- A flat refracting surface with `Diam = 2`, axis-aligned `D`; its
cross-section uses the generic branch. -/
def flatSurf : Surface := ⟨2, 0, 0, [⟨0, 0⟩], "refraction", (0, 0, 0)⟩

/-- A flat stop with a non-π-multiple direction component, zero
curvature and zero `diam`; its cross-section uses the special branch. -/
def tiltSurf : Surface := ⟨2, 0, 0, [⟨1, 0⟩], "refraction", (0, 0, 0)⟩

/-- The scenario-3 point cloud: heights 0 everywhere, `Diam = 2`. -/
def scenario3_cloud : List Pt3 := gen_points_surf flatHeight 2

/-- A non-refracting stop surface. -/
def stopSurf : Surface := ⟨2, 0, 0, [⟨0, 0⟩], "stop", (0, 0, 0)⟩

/-- A small two-point cloud; both points lie on the y = 0 cross-hair,
so both survive generic cross-section selection. -/
def cexCloud : List Pt3 := [⟨some 1, some 0, some 0⟩, ⟨some 2, some 0, some 10⟩]

/-- Two lenses separated by a stop: surfaces 0-1 and 3-4 are the
refracting pairs. -/
def cexSystem : List Surface := [flatSurf, flatSurf, stopSurf, flatSurf, flatSurf]

def plot_rays_count_ray : Ray :=
  ⟨[(0, 0, 0), (0, 0, 1), (0, 0, 2)], [(0, 0, 1), (0, 0, 1), (0, 0, 1)]⟩

/-! ## List helper lemmas -/

theorem zip_replicate_right {α β : Type*} (l : List α) (c : β) :
    l.zip (List.replicate l.length c) = l.map fun x => (x, c) := by
  induction l with
  | nil => rfl
  | cons a t ih => simpa [List.replicate_succ] using ih

theorem zip_replicate_left {α β : Type*} (l : List β) (c : α) :
    (List.replicate l.length c).zip l = l.map fun x => (c, x) := by
  induction l with
  | nil => rfl
  | cons a t ih => simpa [List.replicate_succ] using ih

theorem zip_flatMap_chunks {α β γ : Type*} (idx : List α)
    (f : α → List β) (g : α → List γ) (h : ∀ a, (f a).length = (g a).length) :
    (idx.flatMap f).zip (idx.flatMap g) = idx.flatMap fun a => (f a).zip (g a) := by
  induction idx with
  | nil => rfl
  | cons a t ih =>
      simp only [List.flatMap_cons]
      rw [List.zip_append (h a), ih]

theorem length_flatMap_const {α β : Type*} (l : List α) (f : α → List β)
    (n : ℕ) (h : ∀ a, (f a).length = n) : (l.flatMap f).length = l.length * n := by
  induction l with
  | nil => simp
  | cons a t ih =>
      simp only [List.flatMap_cons, List.length_append, ih, List.length_cons, h a]
      ring

theorem getD_zipWith {α β γ : Type*} (f : α → β → γ) (as : List α) (bs : List β)
    (i : ℕ) (da : α) (db : β) (dc : γ) (h1 : i < as.length) (h2 : i < bs.length) :
    (List.zipWith f as bs).getD i dc = f (as.getD i da) (bs.getD i db) := by
  induction as generalizing bs i with
  | nil => simp at h1
  | cons a t ih =>
      cases bs with
      | nil => simp at h2
      | cons b u =>
          cases i with
          | zero => rfl
          | succ j =>
              simp only [List.zipWith_cons_cons, List.getD_cons_succ]
              exact ih u j (by simpa using h1) (by simpa using h2)

/-! ## Mesh structure lemmas -/

theorem length_linspaceQ (b : ℚ) : (linspaceQ b).length = gridRes := by
  rw [linspaceQ, List.length_map, List.length_range]

theorem zip_append3 {α β : Type*} (a1 b1 c1 : List α) (a2 b2 c2 : List β)
    (h1 : a1.length = a2.length) (h2 : b1.length = b2.length) :
    (a1 ++ b1 ++ c1).zip (a2 ++ b2 ++ c2) = a1.zip a2 ++ b1.zip b2 ++ c1.zip c2 := by
  rw [List.append_assoc a1, List.append_assoc a2, List.zip_append h1,
    List.zip_append h2, List.append_assoc]

theorem length_x_grid (b : ℚ) :
    ((linspaceQ b).flatMap fun _ => linspaceQ b).length = gridRes * gridRes := by
  rw [length_flatMap_const _ _ gridRes fun _ => length_linspaceQ b, length_linspaceQ]

theorem length_y_grid (b : ℚ) :
    ((linspaceQ b).flatMap fun v => List.replicate gridRes (-v)).length
      = gridRes * gridRes := by
  rw [length_flatMap_const _ _ gridRes fun v => List.length_replicate gridRes (-v),
    length_linspaceQ]

theorem zip_replicate_gridRes (b c : ℚ) :
    (linspaceQ b).zip (List.replicate gridRes c) = (linspaceQ b).map fun x => (x, c) := by
  rw [← length_linspaceQ b, zip_replicate_right]

theorem replicate_gridRes_zip (b c : ℚ) :
    (List.replicate gridRes c).zip (linspaceQ b) = (linspaceQ b).map fun x => (c, x) := by
  rw [← length_linspaceQ b, zip_replicate_left]

theorem meshpoints_2d_eq (b : ℚ) :
    meshpoints_2d b
      = ((linspaceQ b).flatMap fun v => (linspaceQ b).map fun x => (x, -v))
        ++ ((linspaceQ b).map fun x => (x, (0 : ℚ)))
        ++ ((linspaceQ b).map fun y => ((0 : ℚ), y)) := by
  have hzip := zip_append3
    ((linspaceQ b).flatMap fun _ => linspaceQ b)
    (linspaceQ b)
    (List.replicate gridRes (0 : ℚ))
    ((linspaceQ b).flatMap fun v => List.replicate gridRes (-v))
    (List.replicate gridRes (0 : ℚ))
    (linspaceQ b)
    (by rw [length_x_grid, length_y_grid])
    (by rw [length_linspaceQ, List.length_replicate])
  unfold meshpoints_2d x_points y_points
  rw [hzip, zip_flatMap_chunks _ _ _
    (fun v => by rw [length_linspaceQ, List.length_replicate])]
  simp only [zip_replicate_gridRes, replicate_gridRes_zip]

theorem gen_points_surf_eq (hf : ℚ → ℚ → OQ) (Diam : ℚ) :
    gen_points_surf hf Diam
      = ((linspaceQ (Diam / 2)).flatMap fun v =>
          (linspaceQ (Diam / 2)).map fun x => Pt3.mk (some x) (some (-v)) (hf x (-v)))
        ++ ((linspaceQ (Diam / 2)).map fun x => Pt3.mk (some x) (some 0) (hf x 0))
        ++ ((linspaceQ (Diam / 2)).map fun y => Pt3.mk (some 0) (some y) (hf 0 y)) := by
  unfold gen_points_surf
  rw [meshpoints_2d_eq]
  simp [List.map_flatMap, List.map_map, Function.comp_def]

theorem length_gen_points_surf (hf : ℚ → ℚ → OQ) (Diam : ℚ) :
    (gen_points_surf hf Diam).length = gridRes * gridRes + 2 * gridRes := by
  rw [gen_points_surf_eq]
  simp only [List.length_append, List.length_map, length_linspaceQ]
  rw [length_flatMap_const _ _ gridRes (fun v => by simp [length_linspaceQ]),
    length_linspaceQ]
  ring

/-! ## C6 and C10: mesh generation -/

/-- C6: for every surface, mesh generation produces exactly
`gridRes*gridRes + 2*gridRes = 40400` samples: a 200×200 grid (x from
linspace, y sign-flipped), then a cross-hair along x at `y = 0`, then a
cross-hair along y at `x = 0`, each of 200 samples, in that
concatenation order, with the linspace spanning `[-Diam/2, Diam/2]`. -/
theorem gen_points_shape (hf : ℚ → ℚ → OQ) (Diam : ℚ) :
    (gen_points_surf hf Diam).length = gridRes * gridRes + 2 * gridRes
    ∧ gridRes * gridRes + 2 * gridRes = 40400
    ∧ gen_points_surf hf Diam
      = ((linspaceQ (Diam / 2)).flatMap fun v =>
          (linspaceQ (Diam / 2)).map fun x => Pt3.mk (some x) (some (-v)) (hf x (-v)))
        ++ ((linspaceQ (Diam / 2)).map fun x => Pt3.mk (some x) (some 0) (hf x 0))
        ++ ((linspaceQ (Diam / 2)).map fun y => Pt3.mk (some 0) (some y) (hf 0 y))
    ∧ (linspaceQ (Diam / 2)).length = gridRes
    ∧ (linspaceQ (Diam / 2))[0]? = some (-(Diam / 2))
    ∧ (linspaceQ (Diam / 2))[gridRes - 1]? = some (Diam / 2) := by
  refine ⟨length_gen_points_surf hf Diam, by norm_num [gridRes],
    gen_points_surf_eq hf Diam, length_linspaceQ _, ?_, ?_⟩
  · rw [linspaceQ, List.getElem?_map, List.getElem?_range (by norm_num [gridRes]),
      Option.map_some']
    norm_num
  · rw [linspaceQ, List.getElem?_map, List.getElem?_range (by norm_num [gridRes]),
      Option.map_some']
    norm_num [gridRes]
    ring

theorem getD_append_middle {α : Type*} (acc m k : List α) (i : ℕ) (d : α)
    (hi : i < m.length) :
    (acc ++ m ++ k).getD (acc.length + i) d = m.getD i d := by
  rw [List.append_assoc, List.getD_eq_getElem?_getD,
    List.getElem?_append_right (Nat.le_add_right _ _)]
  have e : acc.length + i - acc.length = i := by omega
  rw [e, List.getElem?_append_left hi, ← List.getD_eq_getElem?_getD]

theorem getD_append_last {α : Type*} (acc m k : List α) (i : ℕ) (d : α) :
    (acc ++ m ++ k).getD (acc.length + m.length + i) d = k.getD i d := by
  rw [List.append_assoc, List.getD_eq_getElem?_getD,
    List.getElem?_append_right (by omega)]
  have e : acc.length + m.length + i - acc.length = m.length + i := by omega
  rw [e, List.getElem?_append_right (by omega)]
  have e2 : m.length + i - m.length = i := by omega
  rw [e2, ← List.getD_eq_getElem?_getD]

/-- C10: mesh generation is deterministic — the clouds appended by a
`gen_points` pass do not depend on the accumulator state, and running
the pass twice appends, for every surface, a second cloud identical to
the first. -/
theorem gen_points_deterministic (hf : Surface → ℚ → ℚ → OQ)
    (surfaces : List Surface) (acc acc2 : List (List Pt3)) :
    (gen_points hf surfaces acc).drop acc.length
      = (gen_points hf surfaces acc2).drop acc2.length
    ∧ ∀ i, i < surfaces.length →
        (gen_points hf surfaces (gen_points hf surfaces acc)).getD (acc.length + i) []
          = (gen_points hf surfaces (gen_points hf surfaces acc)).getD
              (acc.length + surfaces.length + i) [] := by
  constructor
  · rw [gen_points, gen_points, List.drop_left, List.drop_left]
  · intro i hi
    have hrw : gen_points hf surfaces (gen_points hf surfaces acc)
        = acc ++ (surfaces.map fun s => gen_points_surf (hf s) s.Diam)
            ++ (surfaces.map fun s => gen_points_surf (hf s) s.Diam) := by
      rw [gen_points, gen_points, List.append_assoc]
    have hml : (surfaces.map fun s => gen_points_surf (hf s) s.Diam).length
        = surfaces.length := List.length_map _ _
    have hidx : acc.length + surfaces.length + i
        = acc.length + (surfaces.map fun s => gen_points_surf (hf s) s.Diam).length
            + i := by rw [hml]
    rw [hrw, hidx, getD_append_middle _ _ _ _ _ (by omega), getD_append_last]

/-! ## C1, C4, C7: lens clipping -/

theorem clip_core_fst (d : ℚ) (c1 c2 : List Pt3) :
    (clip_core d c1 c2).1
      = List.zipWith (fun p q => if clipMask d p q then { p with z := none } else p)
          c1 c2 := rfl

theorem clip_core_snd (d : ℚ) (c1 c2 : List Pt3) :
    (clip_core d c1 c2).2
      = List.zipWith (fun p q => if clipMask d p q then { q with z := none } else q)
          c1 c2 := rfl

theorem zipWith_eq_left {α β : Type*} (g : α → β → α) (c1 : List α) (c2 : List β)
    (hl : c1.length = c2.length) (h : ∀ p ∈ c1, ∀ q ∈ c2, g p q = p) :
    List.zipWith g c1 c2 = c1 := by
  induction c1 generalizing c2 with
  | nil => rfl
  | cons a t ih =>
      cases c2 with
      | nil => simp at hl
      | cons b u =>
          simp only [List.zipWith_cons_cons]
          rw [h a (by simp) b (by simp), ih u (by simpa using hl)]
          intro p hp q hq
          exact h p (by simp [hp]) q (by simp [hq])

theorem zipWith_eq_right {α β : Type*} (g : α → β → β) (c1 : List α) (c2 : List β)
    (hl : c1.length = c2.length) (h : ∀ p ∈ c1, ∀ q ∈ c2, g p q = q) :
    List.zipWith g c1 c2 = c2 := by
  induction c1 generalizing c2 with
  | nil => cases c2 with
      | nil => rfl
      | cons b u => simp at hl
  | cons a t ih =>
      cases c2 with
      | nil => simp at hl
      | cons b u =>
          simp only [List.zipWith_cons_cons]
          rw [h a (by simp) b (by simp), ih u (by simpa using hl)]
          intro p hp q hq
          exact h p (by simp [hp]) q (by simp [hq])

/-- C1: `clip_lens` masks a sample index (writes nan into the z-value,
of both clouds) if and only if, after replacing incoming nan z-values
by 0 and adding the separation `d` to the second cloud's z-values, the
difference `(second z) - (first z)` is `<= 0` at that index; and when
both clouds have height 0 everywhere and `d = 2`, no sample is masked
and the clipped clouds equal the unclipped ones. -/
theorem clip_core_mask_iff (d : ℚ) (c1 c2 : List Pt3) (i : ℕ)
    (h1 : i < c1.length) (h2 : i < c2.length) :
    ((clip_core d c1 c2).1.getD i default
        = (if (nan_to_num (c2.getD i default).z + d) - nan_to_num (c1.getD i default).z ≤ 0
           then { c1.getD i default with z := none } else c1.getD i default)
      ∧ (clip_core d c1 c2).2.getD i default
        = (if (nan_to_num (c2.getD i default).z + d) - nan_to_num (c1.getD i default).z ≤ 0
           then { c2.getD i default with z := none } else c2.getD i default))
    ∧ ((∀ p ∈ c1, p.z = some 0) → (∀ q ∈ c2, q.z = some 0) → d = 2 →
        c1.length = c2.length → clip_core d c1 c2 = (c1, c2)) := by
  refine ⟨⟨?_, ?_⟩, ?_⟩
  · rw [clip_core_fst, getD_zipWith _ c1 c2 i default default default h1 h2]
    by_cases hc : (nan_to_num (c2.getD i default).z + d) - nan_to_num (c1.getD i default).z ≤ 0
    · simp [clipMask, hc]
    · simp [clipMask, hc]
  · rw [clip_core_snd, getD_zipWith _ c1 c2 i default default default h1 h2]
    by_cases hc : (nan_to_num (c2.getD i default).z + d) - nan_to_num (c1.getD i default).z ≤ 0
    · simp [clipMask, hc]
    · simp [clipMask, hc]
  · intro hz1 hz2 hd hl
    have hmask : ∀ p ∈ c1, ∀ q ∈ c2, clipMask d p q = false := by
      intro p hp q hq
      rw [clipMask, hz1 p hp, hz2 q hq, hd]
      norm_num [nan_to_num]
    rw [clip_core]
    refine Prod.ext ?_ ?_
    · show List.zipWith _ c1 c2 = c1
      exact zipWith_eq_left _ c1 c2 hl fun p hp q hq => by rw [hmask p hp q hq]; rfl
    · show List.zipWith _ c1 c2 = c2
      exact zipWith_eq_right _ c1 c2 hl fun p hp q hq => by rw [hmask p hp q hq]; rfl

/-- C4: the clipper applies one shared mask to both clouds — at every
index where the mask holds it writes nan into both clouds' z-values,
and at every index where it does not hold it leaves both clouds'
z-values unchanged; the masked index sets of the two clouds are
therefore identical. -/
theorem clip_core_mask_symmetric (d : ℚ) (c1 c2 : List Pt3) (i : ℕ)
    (h1 : i < c1.length) (h2 : i < c2.length) :
    (clipMask d (c1.getD i default) (c2.getD i default) = true →
      ((clip_core d c1 c2).1.getD i default).z = none
        ∧ ((clip_core d c1 c2).2.getD i default).z = none)
    ∧ (clipMask d (c1.getD i default) (c2.getD i default) = false →
      ((clip_core d c1 c2).1.getD i default).z = (c1.getD i default).z
        ∧ ((clip_core d c1 c2).2.getD i default).z = (c2.getD i default).z) := by
  rw [clip_core_fst, clip_core_snd, getD_zipWith _ c1 c2 i default default default h1 h2,
    getD_zipWith _ c1 c2 i default default default h1 h2]
  constructor
  · intro hm
    rw [hm]
    exact ⟨rfl, rfl⟩
  · intro hm
    rw [hm]
    exact ⟨rfl, rfl⟩

/-- C7: clipping changes only z-values at masked indices — the clipped
clouds keep their lengths (in particular the mesh-generation count
`gridRes*gridRes + 2*gridRes` when the inputs come from `gen_points`),
every x and y coordinate is unchanged in both clouds, every z-value at
an unmasked index is unchanged, and the `+d` comparison shift is not
persisted into the second cloud. -/
theorem clip_core_frame_effect (d : ℚ) (c1 c2 : List Pt3)
    (hl : c1.length = c2.length) :
    (clip_core d c1 c2).1.length = c1.length
    ∧ (clip_core d c1 c2).2.length = c2.length
    ∧ (∀ hf1 hf2 : ℚ → ℚ → OQ, ∀ D1 D2 : ℚ,
        (clip_core d (gen_points_surf hf1 D1) (gen_points_surf hf2 D2)).1.length
          = gridRes * gridRes + 2 * gridRes)
    ∧ (∀ i, i < c1.length →
        ((clip_core d c1 c2).1.getD i default).x = (c1.getD i default).x
        ∧ ((clip_core d c1 c2).1.getD i default).y = (c1.getD i default).y
        ∧ ((clip_core d c1 c2).2.getD i default).x = (c2.getD i default).x
        ∧ ((clip_core d c1 c2).2.getD i default).y = (c2.getD i default).y)
    ∧ (∀ i, i < c1.length →
        clipMask d (c1.getD i default) (c2.getD i default) = false →
        ((clip_core d c1 c2).1.getD i default).z = (c1.getD i default).z
        ∧ ((clip_core d c1 c2).2.getD i default).z = (c2.getD i default).z) := by
  refine ⟨?_, ?_, ?_, ?_, ?_⟩
  · rw [clip_core_fst, List.length_zipWith, hl, Nat.min_self]
  · rw [clip_core_snd, List.length_zipWith, hl, Nat.min_self]
  · intro hf1 hf2 D1 D2
    rw [clip_core_fst, List.length_zipWith, length_gen_points_surf,
      length_gen_points_surf, Nat.min_self]
  · intro i hi
    rw [clip_core_fst, clip_core_snd,
      getD_zipWith _ c1 c2 i default default default hi (hl ▸ hi),
      getD_zipWith _ c1 c2 i default default default hi (hl ▸ hi)]
    by_cases hc : clipMask d (c1.getD i default) (c2.getD i default) = true
    · rw [hc]
      exact ⟨rfl, rfl, rfl, rfl⟩
    · rw [Bool.not_eq_true] at hc
      rw [hc]
      exact ⟨rfl, rfl, rfl, rfl⟩
  · intro i hi hm
    rw [clip_core_fst, clip_core_snd,
      getD_zipWith _ c1 c2 i default default default hi (hl ▸ hi),
      getD_zipWith _ c1 c2 i default default default hi (hl ▸ hi), hm]
    exact ⟨rfl, rfl⟩

/-! ## C3: cross-section branch selection -/

theorem modPiNonzero_iff_not_pi_multiple (v : PiQ) :
    modPiNonzero v = true ↔ ∀ k : ℤ, PiQ.val v ≠ (k : ℝ) * Real.pi := by
  constructor
  · intro h k hk
    rw [modPiNonzero, Bool.not_eq_true', Bool.and_eq_false_iff] at h
    rw [PiQ.val] at hk
    by_cases ha : v.a = 0
    · have hden : v.b.den ≠ 1 := by
        intro hd
        rcases h with h | h
        · rw [beq_eq_false_iff_ne] at h
          exact h ha
        · rw [beq_eq_false_iff_ne] at h
          exact h hd
      have hb : (v.b : ℝ) = (k : ℝ) := by
        rw [ha] at hk
        push_cast at hk
        have hpi := Real.pi_ne_zero
        field_simp at hk
        rcases hk with hk | hk
        · exact hk
        · exact absurd hk hpi
      have hbq : v.b = ((k : ℤ) : ℚ) := by exact_mod_cast hb
      exact hden (by rw [hbq, Rat.den_intCast])
    · have h2 : ((k : ℚ) - v.b) ≠ 0 := by
        intro h0
        have hbk : v.b = (k : ℚ) := by linarith [sub_eq_zero.mp h0]
        have har : (v.a : ℝ) = 0 := by
          rw [hbk] at hk
          push_cast at hk
          linarith [hk]
        exact ha (by exact_mod_cast har)
      have h2r : ((k : ℝ) - (v.b : ℝ)) ≠ 0 := by
        intro hc0
        exact h2 (by exact_mod_cast hc0)
      have hpi : ((v.a / ((k : ℚ) - v.b) : ℚ) : ℝ) = Real.pi := by
        push_cast
        rw [div_eq_iff h2r]
        nlinarith [hk]
      exact irrational_pi ⟨_, hpi⟩
  · intro h
    by_contra hb
    rw [Bool.not_eq_true, modPiNonzero, Bool.not_eq_false', Bool.and_eq_true] at hb
    obtain ⟨ha, hd⟩ := hb
    rw [beq_iff_eq] at ha hd
    have hbnum : v.b = ((v.b.num : ℤ) : ℚ) := ((Rat.den_eq_one_iff v.b).mp hd).symm
    refine h v.b.num ?_
    have hbr : (v.b : ℝ) = ((v.b.num : ℤ) : ℝ) := by exact_mod_cast hbnum
    rw [PiQ.val, ha, hbr]
    push_cast
    ring

/-- C3: the special cross-section branch (select points with coordinate
`axes[1]` equal to zero) is taken iff some component of `D` is not an
integer multiple of π, the curvature `c` is zero, and `diam` is zero;
for every surface with `D` entirely integer multiples of π, or with
nonzero curvature, or with nonzero `diam`, the generic branch (select
points with coordinate `1 - axes[0]` equal to zero) is used. -/
theorem cross_section_branch (axes : ℕ × ℕ) (s : Surface) (cloud : List Pt3) :
    ((∃ v ∈ s.D, ∀ k : ℤ, PiQ.val v ≠ (k : ℝ) * Real.pi) ∧ s.c = 0 ∧ s.diam = 0 →
      cross_idx_filter axes s cloud
        = cloud.filter fun p => eqZeroAbs (coordN p axes.2))
    ∧ ((∀ v ∈ s.D, ∃ k : ℤ, PiQ.val v = (k : ℝ) * Real.pi) ∨ s.c ≠ 0 ∨ s.diam ≠ 0 →
      cross_idx_filter axes s cloud
        = cloud.filter fun p => eqZeroAbs (coordN p (1 - axes.1))) := by
  constructor
  · rintro ⟨⟨v, hv, hk⟩, hc, hd⟩
    have hsp : specialCond s = true := by
      rw [specialCond, Bool.and_eq_true, Bool.and_eq_true]
      exact ⟨⟨List.any_eq_true.mpr
        ⟨v, hv, (modPiNonzero_iff_not_pi_multiple v).mpr hk⟩,
        beq_iff_eq.mpr hc⟩, beq_iff_eq.mpr hd⟩
    rw [cross_idx_filter, hsp]
    rfl
  · intro h
    have hsp : specialCond s = false := by
      rw [specialCond]
      rcases h with h | h | h
      · have hany : s.D.any modPiNonzero = false := by
          rw [List.any_eq_false]
          intro v hv
          rw [modPiNonzero_iff_not_pi_multiple]
          push_neg
          obtain ⟨k, hk⟩ := h v hv
          exact ⟨k, hk⟩
        rw [hany, Bool.false_and, Bool.false_and]
      · rw [Bool.and_eq_false_iff, Bool.and_eq_false_iff]
        exact Or.inl (Or.inr (beq_eq_false_iff_ne.mpr h))
      · rw [Bool.and_eq_false_iff]
        exact Or.inr (beq_eq_false_iff_ne.mpr h)
    rw [cross_idx_filter, hsp]
    rfl

/-! ## C2: lens stitching -/

/-- C2 (amended): the stitch insertion chooses by comparing only the
stored start's Euclidean distances (as the source does through
`np.sqrt`) to the current curve's first and last points: if
`dist(start, first) <= dist(start, last)` the stored pair is inserted
at positions `[0, -1]`, otherwise at `[-1, 0]`; the stored end's
distances are not consulted. -/
theorem stitch_choice_by_start_distance (s e : OQ × OQ) (F G : List OQ)
    (sa sb a1 b1 a2 b2 : ℚ)
    (hs : s = (some sa, some sb))
    (hF0 : F.headD none = some a1) (hG0 : G.headD none = some b1)
    (hFl : F.getLastD none = some a2) (hGl : G.getLastD none = some b2) :
    (Real.sqrt (((sa : ℝ) - a1) ^ 2 + ((sb : ℝ) - b1) ^ 2)
        ≤ Real.sqrt (((sa : ℝ) - a2) ^ 2 + ((sb : ℝ) - b2) ^ 2) →
      stitchInsert s e F G = (npInsertFront s.1 e.1 F, npInsertFront s.2 e.2 G))
    ∧ (Real.sqrt (((sa : ℝ) - a2) ^ 2 + ((sb : ℝ) - b2) ^ 2)
        < Real.sqrt (((sa : ℝ) - a1) ^ 2 + ((sb : ℝ) - b1) ^ 2) →
      stitchInsert s e F G = (npInsertBack s.1 e.1 F, npInsertBack s.2 e.2 G)) := by
  have hd1 : distSqO s (F.headD none, G.headD none)
      = some ((sa - a1) ^ 2 + (sb - b1) ^ 2) := by
    rw [hs, hF0, hG0]
    simp [distSqO, oBin]
  have hd2 : distSqO s (F.getLastD none, G.getLastD none)
      = some ((sa - a2) ^ 2 + (sb - b2) ^ 2) := by
    rw [hs, hFl, hGl]
    simp [distSqO, oBin]
  constructor
  · intro h
    have hq : (sa - a1) ^ 2 + (sb - b1) ^ 2 ≤ (sa - a2) ^ 2 + (sb - b2) ^ 2 := by
      by_contra hlt
      push_neg at hlt
      have hltr : ((sa : ℝ) - a2) ^ 2 + ((sb : ℝ) - b2) ^ 2
          < ((sa : ℝ) - a1) ^ 2 + ((sb : ℝ) - b1) ^ 2 := by exact_mod_cast hlt
      exact absurd h (not_le.mpr (Real.sqrt_lt_sqrt (by positivity) hltr))
    rw [stitchInsert, hd1, hd2]
    simp [oLe, hq]
  · intro h
    have hq : ¬((sa - a1) ^ 2 + (sb - b1) ^ 2 ≤ (sa - a2) ^ 2 + (sb - b2) ^ 2) := by
      intro hle
      have hler : ((sa : ℝ) - a1) ^ 2 + ((sb : ℝ) - b1) ^ 2
          ≤ ((sa : ℝ) - a2) ^ 2 + ((sb : ℝ) - b2) ^ 2 := by exact_mod_cast hle
      exact absurd (Real.sqrt_le_sqrt hler) (not_le.mpr h)
    rw [stitchInsert, hd1, hd2]
    simp [oLe, hq]

/-- C2 counterexample: a concrete configuration where the insertion
chosen by the code (the `[0, -1]` variant, because the stored start is
closer to the curve's first point) has a strictly *larger* total
connecting distance than the rejected `[-1, 0]` variant — the claim
that the inserted pair of positions minimises the total connecting
distance is false.  Stored start (0, 1), stored end (0, 0), curve
points (1, 0) then (2, 0). -/
theorem stitch_total_distance_cex :
    stitchInsert (some 0, some 1) (some 0, some 0)
        [some 1, some 2] [some 0, some 0]
      = ([some 0, some 1, some 0, some 2], [some 1, some 0, some 0, some 0])
    ∧ Real.sqrt (((0 : ℝ) - 2) ^ 2 + (1 - 0) ^ 2)
        + Real.sqrt (((0 : ℝ) - 1) ^ 2 + (0 - 0) ^ 2)
      < Real.sqrt (((0 : ℝ) - 1) ^ 2 + (1 - 0) ^ 2)
        + Real.sqrt (((0 : ℝ) - 2) ^ 2 + (0 - 0) ^ 2) := by
  constructor
  · have hc : oLe
        (distSqO ((some 0 : OQ), (some 1 : OQ))
          (([some 1, some 2] : List OQ).headD none, ([some 0, some 0] : List OQ).headD none))
        (distSqO ((some 0 : OQ), (some 1 : OQ))
          (([some 1, some 2] : List OQ).getLastD none, ([some 0, some 0] : List OQ).getLastD none))
        = true := by
      norm_num [distSqO, oBin, oLe]
    rw [stitchInsert, hc]
    norm_num [npInsertFront]
  · have e5 : ((0 : ℝ) - 2) ^ 2 + (1 - 0) ^ 2 = 5 := by norm_num
    have e2 : ((0 : ℝ) - 1) ^ 2 + (1 - 0) ^ 2 = 2 := by norm_num
    have e4 : ((0 : ℝ) - 2) ^ 2 + (0 - 0) ^ 2 = 4 := by norm_num
    have e1 : ((0 : ℝ) - 1) ^ 2 + (0 - 0) ^ 2 = 1 := by norm_num
    rw [e5, e2, e4, e1, Real.sqrt_one,
      show (4 : ℝ) = 2 ^ 2 by norm_num, Real.sqrt_sq (by norm_num : (0 : ℝ) ≤ 2)]
    have hs2 : Real.sqrt 1 < Real.sqrt 2 :=
      Real.sqrt_lt_sqrt (by norm_num) (by norm_num)
    rw [Real.sqrt_one] at hs2
    have h5 : Real.sqrt 5 < Real.sqrt 2 + 1 := by
      rw [Real.sqrt_lt' (by positivity)]
      nlinarith [Real.sq_sqrt (show (0 : ℝ) ≤ 2 by norm_num), hs2]
    linarith [h5]

/-! ## C9: ray rendering -/

/-- C9: for every ray with a position history of length `n >= 2` (and a
direction history aligned with it), the renderer draws exactly `n - 1`
connecting segments — the `i`-th joining the projections of consecutive
history positions `i` and `i+1` onto the requested axes — plus exactly
one direction-indicator segment from the final position along the final
direction vector, for any chosen pair of axes. -/
theorem plot_rays_segment_count (axes : ℕ × ℕ) (r : Ray)
    (h2 : 2 ≤ r.P_hist.length) :
    (plot_rays_ray axes r).length = (r.P_hist.length - 1) + 1
    ∧ (∀ i, i < r.P_hist.length - 1 →
        (plot_rays_ray axes r).getD i default
          = ⟨(vcoord (r.P_hist.getD i default) axes.2,
              vcoord (r.P_hist.getD i default) axes.1),
             (vcoord (r.P_hist.getD (i + 1) default) axes.2,
              vcoord (r.P_hist.getD (i + 1) default) axes.1)⟩)
    ∧ (plot_rays_ray axes r).getLastD default
        = ⟨(vcoord (r.P_hist.getD (r.P_hist.length - 1) default) axes.2,
            vcoord (r.P_hist.getD (r.P_hist.length - 1) default) axes.1),
           (vcoord (r.P_hist.getD (r.P_hist.length - 1) default) axes.2,
            vcoord (r.P_hist.getD (r.P_hist.length - 1) default) axes.1)
             + (vcoord (r.D_hist.getD (r.P_hist.length - 1) default) axes.2,
                vcoord (r.D_hist.getD (r.P_hist.length - 1) default) axes.1)⟩ := by
  refine ⟨?_, ?_, ?_⟩
  · rw [plot_rays_ray]
    simp
  · intro i hi
    rw [plot_rays_ray]
    simp only [List.getD_eq_getElem?_getD]
    rw [List.getElem?_append_left (by simpa using hi), List.getElem?_map,
      List.getElem?_range hi, Option.map_some']
    rfl
  · rw [plot_rays_ray]
    simp only [List.getLastD_eq_getLast?]
    rw [List.getLast?_concat]
    rfl

/-! ## C5: nan propagation through selection (scenario 3) -/

theorem zipWith_congr_mem {α β γ : Type*} (f g : α → β → γ) (c1 : List α)
    (c2 : List β) (h : ∀ p ∈ c1, ∀ q ∈ c2, f p q = g p q) :
    List.zipWith f c1 c2 = List.zipWith g c1 c2 := by
  induction c1 generalizing c2 with
  | nil => rfl
  | cons a t ih =>
      cases c2 with
      | nil => rfl
      | cons b u =>
          simp only [List.zipWith_cons_cons]
          rw [h a (by simp) b (by simp), ih u]
          intro p hp q hq
          exact h p (by simp [hp]) q (by simp [hq])

theorem zipWith_eq_map_left {α β γ : Type*} (g : α → γ) (c1 : List α)
    (c2 : List β) (hl : c1.length = c2.length) :
    List.zipWith (fun p _ => g p) c1 c2 = c1.map g := by
  induction c1 generalizing c2 with
  | nil => rfl
  | cons a t ih =>
      cases c2 with
      | nil => simp at hl
      | cons b u =>
          simp only [List.zipWith_cons_cons, List.map_cons]
          rw [ih u (by simpa using hl)]

theorem zipWith_eq_map_right {α β γ : Type*} (g : β → γ) (c1 : List α)
    (c2 : List β) (hl : c1.length = c2.length) :
    List.zipWith (fun _ q => g q) c1 c2 = c2.map g := by
  induction c1 generalizing c2 with
  | nil => cases c2 with
      | nil => rfl
      | cons b u => simp at hl
  | cons a t ih =>
      cases c2 with
      | nil => simp at hl
      | cons b u =>
          simp only [List.zipWith_cons_cons, List.map_cons]
          rw [ih u (by simpa using hl)]

/-- When both clouds have height 0 everywhere and the separation is
`<= 0`, every sample is masked: the clipper writes nan into every
z-value of both clouds. -/
theorem clip_core_all_masked (d : ℚ) (hd : d ≤ 0) (c1 c2 : List Pt3)
    (hl : c1.length = c2.length)
    (h1 : ∀ p ∈ c1, p.z = some 0) (h2 : ∀ q ∈ c2, q.z = some 0) :
    clip_core d c1 c2
      = (c1.map fun p => { p with z := none },
         c2.map fun q => { q with z := none }) := by
  have hmask : ∀ p ∈ c1, ∀ q ∈ c2, clipMask d p q = true := by
    intro p hp q hq
    rw [clipMask, h1 p hp, h2 q hq]
    simpa [nan_to_num] using hd
  rw [clip_core]
  refine Prod.ext ?_ ?_
  · show List.zipWith _ c1 c2 = _
    rw [zipWith_congr_mem _ (fun p _ => { p with z := none }) c1 c2
      (fun p hp q hq => by rw [hmask p hp q hq]; rfl)]
    exact zipWith_eq_map_left _ c1 c2 hl
  · show List.zipWith _ c1 c2 = _
    rw [zipWith_congr_mem _ (fun _ q => { q with z := none }) c1 c2
      (fun p hp q hq => by rw [hmask p hp q hq]; rfl)]
    exact zipWith_eq_map_right _ c1 c2 hl

theorem scenario3_cloud_z (p : Pt3) (hp : p ∈ scenario3_cloud) : p.z = some 0 := by
  rw [scenario3_cloud, gen_points_surf] at hp
  simp only [List.mem_map] at hp
  obtain ⟨v, hv, rfl⟩ := hp
  rfl

theorem linspace_one_ne_zero (q : ℚ) (hq : q ∈ linspaceQ 1) : q ≠ 0 := by
  rw [linspaceQ] at hq
  simp only [List.mem_map, List.mem_range] at hq
  obtain ⟨i, hi, rfl⟩ := hq
  intro h0
  have h199 : ((gridRes : ℚ) - 1) = 199 := by norm_num [gridRes]
  rw [h199] at h0
  have hq2 : (2 * (i : ℚ)) = 199 := by
    field_simp at h0
    linarith
  have hnat : 2 * i = 199 := by exact_mod_cast hq2
  omega

theorem filter_yzero_grid :
    (((linspaceQ 1).flatMap fun v => (linspaceQ 1).map fun x => (x, -v)).filter
      fun v : ℚ × ℚ => decide (|v.2| = 0)) = [] := by
  rw [List.filter_eq_nil_iff]
  intro v hv
  simp only [List.mem_flatMap, List.mem_map] at hv
  obtain ⟨w, hw, x, hx, rfl⟩ := hv
  simp only [decide_eq_true_eq, abs_eq_zero, neg_eq_zero]
  exact linspace_one_ne_zero w hw

theorem filter_yzero_hairx :
    (((linspaceQ 1).map fun x => (x, (0 : ℚ))).filter
      fun v : ℚ × ℚ => decide (|v.2| = 0))
      = (linspaceQ 1).map fun x => (x, (0 : ℚ)) := by
  rw [List.filter_eq_self]
  intro v hv
  simp only [List.mem_map] at hv
  obtain ⟨x, hx, rfl⟩ := hv
  simp

theorem filter_yzero_hairy :
    (((linspaceQ 1).map fun y => ((0 : ℚ), y)).filter
      fun v : ℚ × ℚ => decide (|v.2| = 0)) = [] := by
  rw [List.filter_eq_nil_iff]
  intro v hv
  simp only [List.mem_map] at hv
  obtain ⟨y, hy, rfl⟩ := hv
  simp only [decide_eq_true_eq, abs_eq_zero]
  exact linspace_one_ne_zero y hy

theorem scenario3_cross_curve :
    cross_idx_filter (0, 2) flatSurf (clip_core 0 scenario3_cloud scenario3_cloud).1
      = (linspaceQ 1).map fun x => ⟨some x, some 0, none⟩ := by
  have hclip := clip_core_all_masked 0 le_rfl scenario3_cloud scenario3_cloud rfl
    scenario3_cloud_z scenario3_cloud_z
  rw [hclip]
  have hsp : specialCond flatSurf = false := by
    simp [specialCond, flatSurf, modPiNonzero]
  rw [cross_idx_filter, hsp]
  simp only [Bool.false_eq_true, if_false]
  have hcloud : scenario3_cloud
      = (meshpoints_2d 1).map fun v => ⟨some v.1, some v.2, some 0⟩ := by
    rw [scenario3_cloud, gen_points_surf, show (2 : ℚ) / 2 = 1 by norm_num]
    rfl
  rw [hcloud, List.map_map, List.filter_map, meshpoints_2d_eq,
    List.filter_append, List.filter_append]
  simp only [Function.comp_def, coordN, eqZeroAbs]
  rw [filter_yzero_grid, filter_yzero_hairx, filter_yzero_hairy]
  simp [List.map_map, Function.comp_def]

theorem coordN_zero (p : Pt3) : coordN p 0 = p.x := rfl

theorem coordN_one (p : Pt3) : coordN p 1 = p.y := rfl

theorem coordN_two (p : Pt3) : coordN p 2 = p.z := rfl

/-- C5 counterexample: in end-to-end scenario 3 (adjacent refracting
pair, separation 0, heights 0 everywhere) every sample is masked, yet
the cross-section curve is NOT empty — the generic branch selects on
the y coordinate, which the z-mask does not touch, so the 200
cross-hair points (with nan z) remain in the curve after the frame
transform. -/
theorem scenario3_curve_not_empty :
    (lab_frame (fun _ p => p) flatSurf
        (cross_idx_filter (0, 2) flatSurf
          (clip_core 0 scenario3_cloud scenario3_cloud).1)).length = 200 := by
  rw [lab_frame, List.length_map, scenario3_cross_curve, List.length_map,
    length_linspaceQ]
  rfl

/-- C5 (amended): in scenario 3 every sample of both clouds is masked;
the generic-branch cross-section curve is nonempty (the 200 cross-hair
points survive selection on the untouched y coordinate) but every one
of its G-values (the z axis, `axes[1] = 2`) is nan, so nothing drawable
remains; masked points are excluded by the selection itself only in the
special branch, which tests the z coordinate (`abs(nan) == 0` is
false). -/
theorem scenario3_masked_propagation :
    ((clip_core 0 scenario3_cloud scenario3_cloud).1.all fun p => p.z == none) = true
    ∧ ((clip_core 0 scenario3_cloud scenario3_cloud).2.all fun p => p.z == none) = true
    ∧ (((lab_frame (fun _ p => p) flatSurf
        (cross_idx_filter (0, 2) flatSurf
          (clip_core 0 scenario3_cloud scenario3_cloud).1)).map fun p =>
            coordN p (0, 2).2).all fun g => g == none) = true
    ∧ (lab_frame (fun _ p => p) flatSurf
        (cross_idx_filter (0, 2) flatSurf
          (clip_core 0 scenario3_cloud scenario3_cloud).1)).length = gridRes
    ∧ cross_idx_filter (0, 2) tiltSurf
        (clip_core 0 scenario3_cloud scenario3_cloud).1 = [] := by
  have hclip := clip_core_all_masked 0 le_rfl scenario3_cloud scenario3_cloud rfl
    scenario3_cloud_z scenario3_cloud_z
  refine ⟨?_, ?_, ?_, ?_, ?_⟩
  · rw [hclip]
    simp [List.all_eq_true, List.mem_map]
  · rw [hclip]
    simp [List.all_eq_true, List.mem_map]
  · rw [lab_frame, scenario3_cross_curve]
    simp [List.all_eq_true, List.mem_map, coordN_two]
  · rw [lab_frame, List.length_map, scenario3_cross_curve, List.length_map,
      length_linspaceQ]
  · rw [hclip]
    have hsp : specialCond tiltSurf = true := by
      norm_num [specialCond, tiltSurf, modPiNonzero]
    rw [cross_idx_filter, hsp]
    simp only [if_true]
    rw [List.filter_eq_nil_iff]
    intro p hp
    simp only [List.mem_map] at hp
    obtain ⟨q, hq, rfl⟩ := hp
    simp [coordN_two, eqZeroAbs]

/-! ## C8: stitch-state lifecycle -/

theorem getLastD_concat {α : Type*} (l : List α) (a d : α) :
    (l ++ [a]).getLastD d = a := by
  rw [List.getLastD_eq_getLast?, List.getLast?_concat]
  rfl

/-- C8 (amended): the stitch state is reset (lens_check 0, start None)
at the start of each pass; it is set to the emitted curve's first and
last points whenever `lens_condition` holds at a surface; and once set
it is never cleared by any later step of the pass — consumption happens
only on a toggle-to-1 transition of `lens_check`, which is itself never
reset within the pass. -/
theorem stitch_state_lifecycle (sq : ℚ → ℚ) (labf : Surface → Pt3 → Pt3)
    (axes : ℕ × ℕ) (surfaces : List Surface) (clouds : List (List Pt3))
    (st : PlotState) (idx : ℕ) :
    plot_surfaces sq labf axes [] clouds
      = { lens_check := 0, start := none, endp := none,
          surfpoints := clouds, curves := [] }
    ∧ (lens_condition surfaces idx = true →
        (plot_step sq labf axes surfaces st idx).start
          = some
            ((((plot_step sq labf axes surfaces st idx).curves.getLastD ([], [])).1.headD none),
             (((plot_step sq labf axes surfaces st idx).curves.getLastD ([], [])).2.headD none))
        ∧ (plot_step sq labf axes surfaces st idx).endp
          = some
            ((((plot_step sq labf axes surfaces st idx).curves.getLastD ([], [])).1.getLastD none),
             (((plot_step sq labf axes surfaces st idx).curves.getLastD ([], [])).2.getLastD none)))
    ∧ (st.start.isSome = true →
        ((plot_step sq labf axes surfaces st idx).start).isSome = true) := by
  refine ⟨rfl, ?_, ?_⟩
  · intro h
    simp only [plot_step, h]
    rw [getLastD_concat]
    exact ⟨rfl, rfl⟩
  · intro h
    by_cases hlc : lens_condition surfaces idx = true
    · simp only [plot_step, hlc]
      simp
    · rw [Bool.not_eq_true] at hlc
      simp only [plot_step, hlc]
      simpa using h

/-- C8 counterexample: in a pass over [refr, refr, stop, refr, refr]
(both lenses with coincident vertices, so separation 0), the first
lens's stitch state is consumed at surface 1 (its curve grows from 2 to
4 points by insertion), but the state stored at surface 3 is NOT
consumed at its paired surface 4 (`lens_check`, still 1 from the first
lens, toggles to 0 there, so surface 4's curve keeps its 2 points), and
the state is never cleared: after the pass `start` is still set. -/
theorem stitch_state_not_cleared_cex :
    (plot_surfaces (fun _ => 0) (fun _ p => p) (0, 2) cexSystem
        [cexCloud, cexCloud, cexCloud, cexCloud, cexCloud]).start
      = some (some 1, none)
    ∧ (((plot_surfaces (fun _ => 0) (fun _ p => p) (0, 2) cexSystem
        [cexCloud, cexCloud, cexCloud, cexCloud, cexCloud]).curves.getD 1
          ([], [])).1).length = 4
    ∧ (((plot_surfaces (fun _ => 0) (fun _ p => p) (0, 2) cexSystem
        [cexCloud, cexCloud, cexCloud, cexCloud, cexCloud]).curves.getD 4
          ([], [])).1).length = 2 := by
  with_unfolding_all decide

/-! ## Witnesses -/

theorem gen_points_deterministic_witness :
    0 < [flatSurf].length
    ∧ (gen_points (fun _ _ _ => some 0) [flatSurf]
        (gen_points (fun _ _ _ => some 0) [flatSurf] [])).getD
          (([] : List (List Pt3)).length + 0) []
      = (gen_points (fun _ _ _ => some 0) [flatSurf]
          (gen_points (fun _ _ _ => some 0) [flatSurf] [])).getD
          (([] : List (List Pt3)).length + [flatSurf].length + 0) [] :=
  ⟨by decide,
   (gen_points_deterministic (fun _ _ _ => some 0) [flatSurf] [] []).2 0 (by decide)⟩

theorem clip_core_mask_iff_witness :
    0 < cexCloud.length
    ∧ (clip_core 2 cexCloud cexCloud).1.getD 0 default
        = (if (nan_to_num (cexCloud.getD 0 default).z + 2)
              - nan_to_num (cexCloud.getD 0 default).z ≤ 0
           then { cexCloud.getD 0 default with z := none }
           else cexCloud.getD 0 default) :=
  ⟨by decide, (clip_core_mask_iff 2 cexCloud cexCloud 0 (by decide) (by decide)).1.1⟩

theorem clip_core_mask_symmetric_witness :
    0 < cexCloud.length
    ∧ ((clip_core 2 cexCloud cexCloud).1.getD 0 default).z = (cexCloud.getD 0 default).z
    ∧ ((clip_core 2 cexCloud cexCloud).2.getD 0 default).z = (cexCloud.getD 0 default).z :=
  ⟨by decide, (clip_core_mask_symmetric 2 cexCloud cexCloud 0 (by decide) (by decide)).2
      (by with_unfolding_all decide)⟩

theorem clip_core_frame_effect_witness :
    cexCloud.length = cexCloud.length
    ∧ (clip_core 0 cexCloud cexCloud).1.length = cexCloud.length :=
  ⟨rfl, (clip_core_frame_effect 0 cexCloud cexCloud rfl).1⟩

theorem one_not_pi_multiple (k : ℤ) : PiQ.val ⟨1, 0⟩ ≠ (k : ℝ) * Real.pi := by
  intro h
  rw [PiQ.val] at h
  push_cast at h
  have h1 : (1 : ℝ) = (k : ℝ) * Real.pi := by linarith [h]
  have hk0 : (k : ℚ) ≠ 0 := by
    intro h0
    have hkr : ((k : ℤ) : ℝ) = 0 := by exact_mod_cast h0
    rw [hkr, zero_mul] at h1
    norm_num at h1
  have hpi : ((1 / (k : ℚ) : ℚ) : ℝ) = Real.pi := by
    push_cast
    rw [div_eq_iff (by exact_mod_cast hk0)]
    linarith [h1]
  exact irrational_pi ⟨_, hpi⟩

theorem cross_section_branch_witness :
    cross_idx_filter (0, 2) tiltSurf cexCloud
      = cexCloud.filter (fun p => eqZeroAbs (coordN p (0, 2).2))
    ∧ cross_idx_filter (0, 2) flatSurf cexCloud
      = cexCloud.filter (fun p => eqZeroAbs (coordN p (1 - (0, 2).1))) :=
  ⟨(cross_section_branch (0, 2) tiltSurf cexCloud).1
      ⟨⟨⟨1, 0⟩, by simp [tiltSurf], one_not_pi_multiple⟩, rfl, rfl⟩,
   (cross_section_branch (0, 2) flatSurf cexCloud).2
      (Or.inl fun v hv => ⟨0, by
        simp only [flatSurf, List.mem_singleton] at hv
        rw [hv, PiQ.val]
        push_cast
        ring⟩)⟩

theorem stitch_choice_witness :
    ((some 0 : OQ), (some 0 : OQ)) = (some (0 : ℚ), some (0 : ℚ))
    ∧ stitchInsert ((some 0 : OQ), (some 0 : OQ)) ((some 5 : OQ), (some 5 : OQ))
        [some 1, some 2] [some 0, some 0]
      = (npInsertFront ((some 0 : OQ), (some 0 : OQ)).1
          ((some 5 : OQ), (some 5 : OQ)).1 [some 1, some 2],
         npInsertFront ((some 0 : OQ), (some 0 : OQ)).2
          ((some 5 : OQ), (some 5 : OQ)).2 [some 0, some 0]) :=
  ⟨rfl, (stitch_choice_by_start_distance (some 0, some 0) (some 5, some 5)
      [some 1, some 2] [some 0, some 0] 0 0 1 0 2 0 rfl rfl rfl rfl rfl).1
      (Real.sqrt_le_sqrt (by norm_num))⟩

theorem plot_rays_segment_count_witness :
    2 ≤ plot_rays_count_ray.P_hist.length
    ∧ (plot_rays_ray (0, 2) plot_rays_count_ray).length
        = (plot_rays_count_ray.P_hist.length - 1) + 1 :=
  ⟨by decide, (plot_rays_segment_count (0, 2) plot_rays_count_ray (by decide)).1⟩

theorem stitch_state_lifecycle_witness :
    ({ lens_check := 0, start := some ((some 0 : OQ), (some 0 : OQ)), endp := none,
       surfpoints := [], curves := [] } : PlotState).start.isSome = true
    ∧ ((plot_step (fun _ => 0) (fun _ p => p) (0, 2) cexSystem
        { lens_check := 0, start := some (some 0, some 0), endp := none,
          surfpoints := [], curves := [] } 2).start).isSome = true :=
  ⟨rfl, (stitch_state_lifecycle (fun _ => 0) (fun _ p => p) (0, 2) cexSystem []
      { lens_check := 0, start := some (some 0, some 0), endp := none,
        surfpoints := [], curves := [] } 2).2.2 rfl⟩
